import Mathlib

/-!
Verification of the scoring / evaluation pipeline of the `sugar` repository
(tutorials `EfficientTDNN.ipynb` and `SubnetEvaluation.ipynb`).

The notebooks call into the `sugar` library (`sugar.metrics.calculate_eer`,
`sugar.metrics.calculate_mindcf`, `sugar.scores.score_cohorts`,
`sugar.scores.asnorm`, `sugar.models.veri_validate`), whose sources are not
part of the material under verification; those operations are modelled from
the specification (sections 3, 4.2, 4.3, 5, 7 of the spec), as indicated in
each doc comment.  The notebook-level glue (`eval_veri`, `eval_asnorm`, the
batch-norm calibration cell) is embedded from the notebook sources directly.

Scores and labels are embedded as `List ℚ` / `List Bool`; the AS-Norm
statistics use `ℝ` because a standard deviation involves a square root.
-/

namespace Sugar

/-- Helper: number of target (positive, label `true`) trials in a label vector. -/
def numTar (labels : List Bool) : Nat := labels.countP (fun b => b)

/-- Helper: number of nontarget (negative, label `false`) trials in a label vector. -/
def numNon (labels : List Bool) : Nat := labels.countP (fun b => !b)

/-- Modelled from the spec (section 4.3): number of false accepts at threshold `t`,
accepting a trial when its score is at least `t`: nontarget trials whose score
reaches the threshold. -/
def farCount (labels : List Bool) (scores : List ℚ) (t : ℚ) : Nat :=
  (labels.zip scores).countP (fun p => !p.1 && decide (t ≤ p.2))

/-- Modelled from the spec (section 4.3): number of false rejects at threshold `t`:
target trials whose score falls below the threshold. -/
def frrCount (labels : List Bool) (scores : List ℚ) (t : ℚ) : Nat :=
  (labels.zip scores).countP (fun p => p.1 && decide (p.2 < t))

/-- Modelled from the spec (section 4.3): false-accept rate at threshold `t`. -/
def far (labels : List Bool) (scores : List ℚ) (t : ℚ) : ℚ :=
  (farCount labels scores t : ℚ) / (numNon labels : ℚ)

/-- Modelled from the spec (section 4.3): false-reject rate at threshold `t`. -/
def frr (labels : List Bool) (scores : List ℚ) (t : ℚ) : ℚ :=
  (frrCount labels scores t : ℚ) / (numTar labels : ℚ)

/-- Helper: insert a value into an ascending duplicate-free list, keeping it
ascending and duplicate-free. -/
def insertAsc (x : ℚ) : List ℚ → List ℚ
  | [] => [x]
  | y :: ys => if x < y then x :: y :: ys else if x = y then y :: ys else y :: insertAsc x ys

/-- Modelled from the spec (section 4.3): the threshold sweep uses each unique
score as a candidate threshold; the sweep is the sorted list of unique scores. -/
def thresholds : List ℚ → List ℚ
  | [] => []
  | x :: xs => insertAsc x (thresholds xs)

/-- Modelled from the spec (section 4.3): the (FAR, FRR) curve over the
threshold sweep. -/
def curve (labels : List Bool) (scores : List ℚ) : List (ℚ × ℚ) :=
  (thresholds scores).map (fun t => (far labels scores t, frr labels scores t))

/-- Modelled from the spec (section 4.3): linear interpolation of the
FAR/FRR crossing between two adjacent sweep points `p` (before the crossing)
and `q` (after the crossing). -/
def interp (p q : ℚ × ℚ) : ℚ :=
  let d := (p.1 - p.2) - (q.1 - q.2)
  if d = 0 then (p.1 + p.2) / 2 else p.1 + (q.1 - p.1) * ((p.1 - p.2) / d)

/-- Helper for the EER sweep: walk the curve holding the previous point `p`
(at which FAR still exceeds FRR) until the curves cross, then interpolate. -/
def eerScan (p : ℚ × ℚ) : List (ℚ × ℚ) → ℚ
  | [] => (p.1 + p.2) / 2
  | q :: rest => if q.1 ≤ q.2 then interp p q else eerScan q rest

/-- Modelled from the spec (section 4.3): the EER read off a (FAR, FRR) curve,
the value where the two curves cross, with linear interpolation between the two
bracketing sweep points. -/
def eerFromCurve : List (ℚ × ℚ) → ℚ
  | [] => 0
  | p :: rest => if p.1 ≤ p.2 then (p.1 + p.2) / 2 else eerScan p rest

/-- Helper: a label vector contains both classes. -/
def bothClasses (labels : List Bool) : Bool := labels.contains true && labels.contains false

/-- Modelled from the spec (sections 4.3, 7): `sugar.metrics.calculate_eer`
(its source is not under the verified tree; only the notebooks calling it are).
Fails on a length mismatch or a single-class label vector, otherwise returns
the EER of the swept (FAR, FRR) curve as a fraction. -/
def calculate_eer (labels : List Bool) (scores : List ℚ) : Except String ℚ :=
  if labels.length ≠ scores.length then Except.error "length mismatch between labels and scores"
  else if !(bothClasses labels) then Except.error "labels contain a single class"
  else Except.ok (eerFromCurve (curve labels scores))

/-- Modelled from the spec (section 4.3): the detection cost at one sweep point,
`DCF = C_fr * FRR * p_target + C_fa * FAR * (1 - p_target)`. -/
def dcfAt (pTarget cFa cFr : ℚ) (pr : ℚ × ℚ) : ℚ :=
  cFr * pr.2 * pTarget + cFa * pr.1 * (1 - pTarget)

/-- Helper: minimum of a list of rationals (`0` on the empty list, which the
guarded callers never pass). -/
def minList : List ℚ → ℚ
  | [] => 0
  | [x] => x
  | x :: y :: rest => min x (minList (y :: rest))

/-- Modelled from the spec (sections 4.3, 7): `sugar.metrics.calculate_mindcf`
(its source is not under the verified tree).  Fails on a length mismatch or a
single-class label vector, otherwise returns the minimum detection cost over
the threshold sweep. -/
def calculate_mindcf (labels : List Bool) (scores : List ℚ) (pTarget cFa cFr : ℚ) :
    Except String ℚ :=
  if labels.length ≠ scores.length then Except.error "length mismatch between labels and scores"
  else if !(bothClasses labels) then Except.error "labels contain a single class"
  else Except.ok (minList ((curve labels scores).map (dcfAt pTarget cFa cFr)))

/-- Helper: whether an `Except` result is an explicit error. -/
def isError {ε α : Type} : Except ε α → Bool
  | Except.error _ => true
  | Except.ok _ => false

instance {ε α : Type} [DecidableEq ε] [DecidableEq α] : DecidableEq (Except ε α) := fun x y =>
  match x, y with
  | Except.error a, Except.error b =>
      if h : a = b then isTrue (by rw [h]) else isFalse (by intro he; cases he; exact h rfl)
  | Except.error _, Except.ok _ => isFalse (by intro h; cases h)
  | Except.ok _, Except.error _ => isFalse (by intro h; cases h)
  | Except.ok a, Except.ok b =>
      if h : a = b then isTrue (by rw [h]) else isFalse (by intro he; cases he; exact h rfl)

/-- Embedded from the notebooks (both `eval_veri` definitions): the printed EER is the
returned fraction multiplied by 100 (`eer = eer[0] * 100`). -/
def eer_percent (e : ℚ) : ℚ := e * 100

/-- Helper: insert a value into a descending list, keeping it descending. -/
def insertDesc (x : ℚ) : List ℚ → List ℚ
  | [] => [x]
  | y :: ys => if y ≤ x then x :: y :: ys else y :: insertDesc x ys

/-- Helper: sort a list of scores in descending order (insertion sort). -/
def sortDesc : List ℚ → List ℚ
  | [] => []
  | x :: xs => insertDesc x (sortDesc xs)

/-- Modelled from the spec (section 4.2, step 2): the top-k highest scores of a
cohort score list, the "adaptive" subset. -/
def topk (k : Nat) (l : List ℚ) : List ℚ := (sortDesc l).take k

/-- Modelled from the spec (section 4.2, step 3): the mean of a score subset. -/
def mean (l : List ℚ) : ℚ := l.sum / (l.length : ℚ)

/-- Modelled from the spec (section 4.2, step 3): the (population) variance of a
score subset. -/
def variance (l : List ℚ) : ℚ := (l.map (fun x => (x - mean l) ^ 2)).sum / (l.length : ℚ)

/-- Modelled from the spec (section 4.2, step 3): the standard deviation of a
score subset, the square root of its variance. -/
noncomputable def std (l : List ℚ) : ℝ := Real.sqrt ((variance l : ℚ) : ℝ)

/-- Modelled from the spec (sections 4.2 and 7(c)): one step of
`sugar.scores.asnorm` (its source is not under the verified tree).  A trial is
`(enroll id, test id, raw score)`; `cohortScores u` is the list of raw cohort
similarity scores of utterance `u` (the output of `score_cohorts`).  The step
fails explicitly when a side's top-k statistics are degenerate (zero variance,
equivalently zero standard deviation), otherwise it averages the two per-side
z-score normalizations. -/
noncomputable def asnormOne {U : Type} (k : Nat) (cohortScores : U → List ℚ) (tr : U × U × ℚ) :
    Except String ℝ :=
  if variance (topk k (cohortScores tr.1)) = 0 ∨ variance (topk k (cohortScores tr.2.1)) = 0 then
    Except.error "zero standard deviation in cohort statistics"
  else
    Except.ok (1 / 2 *
      (((tr.2.2 - mean (topk k (cohortScores tr.1)) : ℚ) : ℝ) / std (topk k (cohortScores tr.1)) +
       ((tr.2.2 - mean (topk k (cohortScores tr.2.1)) : ℚ) : ℝ) / std (topk k (cohortScores tr.2.1))))

/-- Modelled from the spec (section 4.2): `sugar.scores.asnorm` over a trial
list; fails explicitly as soon as one trial has degenerate cohort statistics. -/
noncomputable def asnorm {U : Type} (k : Nat) (cohortScores : U → List ℚ) :
    List (U × U × ℚ) → Except String (List ℝ)
  | [] => Except.ok []
  | tr :: rest => do
      let v ← asnormOne k cohortScores tr
      let vs ← asnorm k cohortScores rest
      pure (v :: vs)

/-- Modelled from the spec (sections 2, 3, 5): the raw trial scores of an
evaluation run, one per trial `(enroll id, test id, label)`, computed from the
two embeddings of the trial by the similarity function `score` (the spec's
Score Computer; `veri_validate`'s source is not under the verified tree). -/
def evalScores {U V : Type} (score : V → V → ℚ) (emb : U → V) (trials : List (U × U × Bool)) :
    List ℚ :=
  trials.map (fun tr => score (emb tr.1) (emb tr.2.1))

/-- Modelled from the spec (section 3): the label vector of a trial list. -/
def evalLabels {U : Type} (trials : List (U × U × Bool)) : List Bool :=
  trials.map (fun tr => tr.2.2)

/-- Modelled from the spec (sections 3, 4.2): the trial list paired with its raw
scores, the input of the AS-Norm step. -/
def trialsWithRaw {U V : Type} (score : V → V → ℚ) (emb : U → V)
    (trials : List (U × U × Bool)) : List (U × U × ℚ) :=
  trials.map (fun tr => (tr.1, tr.2.1, score (emb tr.1) (emb tr.2.1)))

/-- Modelled from the spec (section 5): embedding lookup with an optional
precomputed-vector mapping (the `vectors` argument of `veri_validate`); a cached
vector is used when present, otherwise the embedding is extracted fresh. -/
def getVec {U V : Type} (cache : U → Option V) (extract : U → V) (u : U) : V :=
  (cache u).getD (extract u)

/-- Embedded from `EfficientTDNN.ipynb` (`eval_veri`): the abstract
`veri_validate` collaborator is called with a hard-coded `p_target=0.01` and the
function's own `p_target` parameter is not used; the returned EER fraction is
multiplied by 100. `veri_validate` returns `(eer pair, dcf pair, vectors,
scores)` and the notebook keeps `eer[0]` and `dcf[0]`. -/
def eval_veri_E {L N V S : Type} (veri_validate : L → N → ℚ → (ℚ × ℚ) × (ℚ × ℚ) × V × S)
    (test_loader : L) (network : N) (p_target : ℚ) : ℚ × ℚ × V × S :=
  let r := veri_validate test_loader network (1 / 100)
  (r.1.1 * 100, r.2.1.1, r.2.2.1, r.2.2.2)

/-- Embedded from `SubnetEvaluation.ipynb` (`eval_veri`): identical to the
`EfficientTDNN.ipynb` version except that the `p_target` parameter is forwarded
to `veri_validate`. -/
def eval_veri_S {L N V S : Type} (veri_validate : L → N → ℚ → (ℚ × ℚ) × (ℚ × ℚ) × V × S)
    (test_loader : L) (network : N) (p_target : ℚ) : ℚ × ℚ × V × S :=
  let r := veri_validate test_loader network p_target
  (r.1.1 * 100, r.2.1.1, r.2.2.1, r.2.2.2)

/-- Embedded from `EfficientTDNN.ipynb` (`eval_asnorm`): cohort scoring and
AS-Norm are applied through the abstract collaborators, then
`calculate_mindcf` is called with a hard-coded `p_target=0.01`, ignoring the
function's own `p_target` parameter; the EER fraction is multiplied by 100. -/
def eval_asnorm_E {Lb V S C CO S2 : Type} (score_cohorts : C → V → CO)
    (asnormF : S → CO → S2) (calcEer : Lb → S2 → ℚ × ℚ) (calcMindcf : Lb → S2 → ℚ → ℚ × ℚ)
    (labs : Lb) (vec : V) (scs : S) (cohorts : C) (p_target : ℚ) : ℚ × ℚ :=
  let cohorts_o := score_cohorts cohorts vec
  let asso := asnormF scs cohorts_o
  ((calcEer labs asso).1 * 100, (calcMindcf labs asso (1 / 100)).1)

/-- Embedded from `SubnetEvaluation.ipynb` (`eval_asnorm`): identical to the
`EfficientTDNN.ipynb` version except that the `p_target` parameter is forwarded
to `calculate_mindcf`. -/
def eval_asnorm_S {Lb V S C CO S2 : Type} (score_cohorts : C → V → CO)
    (asnormF : S → CO → S2) (calcEer : Lb → S2 → ℚ × ℚ) (calcMindcf : Lb → S2 → ℚ → ℚ × ℚ)
    (labs : Lb) (vec : V) (scs : S) (cohorts : C) (p_target : ℚ) : ℚ × ℚ :=
  let cohorts_o := score_cohorts cohorts vec
  let asso := asnormF scs cohorts_o
  ((calcEer labs asso).1 * 100, (calcMindcf labs asso p_target).1)

/-- Embedded from `SubnetEvaluation.ipynb` (dataset cell): the batch-norm
calibration data is the first 6000 entries of the shuffled training list
(`random.shuffle(train.datalst); train.datalst = train.datalst[:6000]`); the
shuffle outcome is passed in as the already-permuted list. -/
def calibData {U : Type} (shuffled : List U) : List U := shuffled.take 6000

/-- Embedded from `SubnetEvaluation.ipynb` (subnet evaluation cell): if the
cached batch-norm file of the configuration exists its state is loaded and no
calibration forward passes run; otherwise `batch_forward` calibrates on the
shuffled-truncated training data.  Returns the batch-norm state and whether
calibration forward passes were performed. -/
def subnetBn {U B : Type} (cacheExists : Bool) (cached : B) (calibrate : List U → B)
    (shuffled : List U) : B × Bool :=
  if cacheExists then (cached, false) else (calibrate (calibData shuffled), true)

end Sugar

namespace Sugar

/-! ### Helper lemmas about the threshold sweep -/

theorem mem_insertAsc (a x : ℚ) (l : List ℚ) : a ∈ insertAsc x l ↔ a = x ∨ a ∈ l := by
  induction l with
  | nil => simp [insertAsc]
  | cons y ys ih =>
    by_cases h1 : x < y
    · simp [insertAsc, h1, List.mem_cons]
    · by_cases h2 : x = y
      · subst h2
        have he : insertAsc x (x :: ys) = x :: ys := by simp [insertAsc, h1]
        rw [he, List.mem_cons]
        tauto
      · simp only [insertAsc, if_neg h1, if_neg h2, List.mem_cons, ih]
        tauto

theorem pairwise_insertAsc (x : ℚ) (l : List ℚ) (h : l.Pairwise (· < ·)) :
    (insertAsc x l).Pairwise (· < ·) := by
  induction l with
  | nil => simp [insertAsc]
  | cons y ys ih =>
    rcases List.pairwise_cons.mp h with ⟨hy, hys⟩
    by_cases h1 : x < y
    · have he : insertAsc x (y :: ys) = x :: y :: ys := by simp [insertAsc, h1]
      rw [he]
      refine List.pairwise_cons.mpr ⟨?_, h⟩
      intro b hb
      rcases List.mem_cons.mp hb with rfl | hb
      · exact h1
      · exact h1.trans (hy b hb)
    · by_cases h2 : x = y
      · simpa [insertAsc, h1, h2] using h
      · have hyx : y < x := lt_of_le_of_ne (not_lt.mp h1) (Ne.symm h2)
        simp only [insertAsc, if_neg h1, if_neg h2]
        refine List.pairwise_cons.mpr ⟨?_, ih hys⟩
        intro b hb
        rcases (mem_insertAsc b x ys).mp hb with rfl | hb
        · exact hyx
        · exact hy b hb

theorem pairwise_thresholds (l : List ℚ) : (thresholds l).Pairwise (· < ·) := by
  induction l with
  | nil => exact List.Pairwise.nil
  | cons x xs ih => exact pairwise_insertAsc x _ ih

theorem mem_thresholds (a : ℚ) (l : List ℚ) : a ∈ thresholds l ↔ a ∈ l := by
  induction l with
  | nil => simp [thresholds]
  | cons x xs ih => simp [thresholds, mem_insertAsc, ih, List.mem_cons]

theorem sorted_lt_ext (l1 l2 : List ℚ) (h1 : l1.Pairwise (· < ·)) (h2 : l2.Pairwise (· < ·))
    (hmem : ∀ a, a ∈ l1 ↔ a ∈ l2) : l1 = l2 := by
  have nd1 : l1.Nodup := h1.imp ne_of_lt
  have nd2 : l2.Nodup := h2.imp ne_of_lt
  have hp : l1.Perm l2 := (List.perm_ext_iff_of_nodup nd1 nd2).mpr hmem
  exact List.eq_of_perm_of_sorted hp (h1.imp le_of_lt) (h2.imp le_of_lt)

/-! ### Helper lemmas about error-rate counts -/

theorem countP_zip_le_left (q : Bool → Bool) (r : ℚ → Bool) (ls : List Bool) (ss : List ℚ) :
    (ls.zip ss).countP (fun p => q p.1 && r p.2) ≤ ls.countP q := by
  induction ls generalizing ss with
  | nil => simp
  | cons b bs ih =>
    cases ss with
    | nil => simp [List.countP_cons]
    | cons s ss2 =>
      simp only [List.zip_cons_cons, List.countP_cons]
      have hbit : (if (q b && r s) = true then 1 else 0) ≤ (if q b = true then 1 else 0) := by
        cases hq : q b <;> cases hr : r s <;> simp [hq, hr]
      exact Nat.add_le_add (ih ss2) hbit

theorem countP_zip_map (f : ℚ → ℚ) (pr : Bool → ℚ → Bool) (ls : List Bool) (ss : List ℚ) :
    (ls.zip (ss.map f)).countP (fun p => pr p.1 p.2) =
      (ls.zip ss).countP (fun p => pr p.1 (f p.2)) := by
  induction ls generalizing ss with
  | nil => simp
  | cons b bs ih =>
    cases ss with
    | nil => simp
    | cons s ss2 =>
      simp only [List.map_cons, List.zip_cons_cons, List.countP_cons]
      rw [ih ss2]

theorem numNon_pos (labels : List Bool) (hF : false ∈ labels) : 0 < numNon labels :=
  List.countP_pos_iff.mpr ⟨false, hF, rfl⟩

theorem numTar_pos (labels : List Bool) (hT : true ∈ labels) : 0 < numTar labels :=
  List.countP_pos_iff.mpr ⟨true, hT, rfl⟩

theorem farCount_le (labels : List Bool) (scores : List ℚ) (t : ℚ) :
    farCount labels scores t ≤ numNon labels :=
  countP_zip_le_left (fun b => !b) (fun s => decide (t ≤ s)) labels scores

theorem frrCount_le (labels : List Bool) (scores : List ℚ) (t : ℚ) :
    frrCount labels scores t ≤ numTar labels :=
  countP_zip_le_left (fun b => b) (fun s => decide (s < t)) labels scores

theorem far_nonneg (labels : List Bool) (scores : List ℚ) (t : ℚ) : 0 ≤ far labels scores t :=
  div_nonneg (Nat.cast_nonneg _) (Nat.cast_nonneg _)

theorem frr_nonneg (labels : List Bool) (scores : List ℚ) (t : ℚ) : 0 ≤ frr labels scores t :=
  div_nonneg (Nat.cast_nonneg _) (Nat.cast_nonneg _)

theorem far_le_one (labels : List Bool) (scores : List ℚ) (t : ℚ) (hF : false ∈ labels) :
    far labels scores t ≤ 1 := by
  have hpos : (0 : ℚ) < (numNon labels : ℚ) := by
    exact_mod_cast numNon_pos labels hF
  rw [far, div_le_one hpos]
  exact_mod_cast farCount_le labels scores t

theorem frr_le_one (labels : List Bool) (scores : List ℚ) (t : ℚ) (hT : true ∈ labels) :
    frr labels scores t ≤ 1 := by
  have hpos : (0 : ℚ) < (numTar labels : ℚ) := by
    exact_mod_cast numTar_pos labels hT
  rw [frr, div_le_one hpos]
  exact_mod_cast frrCount_le labels scores t

theorem curve_bounds (labels : List Bool) (scores : List ℚ) (hT : true ∈ labels)
    (hF : false ∈ labels) :
    ∀ p ∈ curve labels scores, 0 ≤ p.1 ∧ p.1 ≤ 1 ∧ 0 ≤ p.2 ∧ p.2 ≤ 1 := by
  intro p hp
  simp only [curve, List.mem_map] at hp
  obtain ⟨t, _, rfl⟩ := hp
  exact ⟨far_nonneg labels scores t, far_le_one labels scores t hF,
    frr_nonneg labels scores t, frr_le_one labels scores t hT⟩

/-! ### Helper lemmas about the EER sweep -/

theorem interp_mem_unit (p q : ℚ × ℚ) (hp1 : 0 ≤ p.1) (hp2 : p.1 ≤ 1) (hq1 : 0 ≤ q.1)
    (hq2 : q.1 ≤ 1) (hpc : p.2 < p.1) (hqc : q.1 ≤ q.2) :
    0 ≤ interp p q ∧ interp p q ≤ 1 := by
  have hd : 0 < (p.1 - p.2) - (q.1 - q.2) := by linarith
  rw [interp, if_neg (ne_of_gt hd)]
  set l := (p.1 - p.2) / ((p.1 - p.2) - (q.1 - q.2)) with hl
  have hl0 : 0 ≤ l := div_nonneg (by linarith) (le_of_lt hd)
  have hl1 : l ≤ 1 := by
    rw [hl, div_le_one hd]
    linarith
  constructor
  · nlinarith [mul_nonneg (sub_nonneg.mpr hl1) hp1, mul_nonneg hl0 hq1]
  · nlinarith [mul_nonneg (sub_nonneg.mpr hl1) (sub_nonneg.mpr hp2),
      mul_nonneg hl0 (sub_nonneg.mpr hq2)]

theorem eerScan_mem_unit (rest : List (ℚ × ℚ)) :
    ∀ p : ℚ × ℚ, 0 ≤ p.1 → p.1 ≤ 1 → 0 ≤ p.2 → p.2 ≤ 1 → p.2 < p.1 →
      (∀ q ∈ rest, 0 ≤ q.1 ∧ q.1 ≤ 1 ∧ 0 ≤ q.2 ∧ q.2 ≤ 1) →
      0 ≤ eerScan p rest ∧ eerScan p rest ≤ 1 := by
  induction rest with
  | nil =>
    intro p h1 h2 h3 h4 _ _
    constructor
    · simp only [eerScan]
      linarith
    · simp only [eerScan]
      linarith
  | cons q rest ih =>
    intro p h1 h2 h3 h4 h5 hrest
    obtain ⟨hq1, hq2, hq3, hq4⟩ := hrest q (List.mem_cons_self q rest)
    by_cases hc : q.1 ≤ q.2
    · simp only [eerScan, if_pos hc]
      exact interp_mem_unit p q h1 h2 hq1 hq2 h5 hc
    · simp only [eerScan, if_neg hc]
      exact ih q hq1 hq2 hq3 hq4 (not_le.mp hc)
        (fun r hr => hrest r (List.mem_cons_of_mem q hr))

theorem eerFromCurve_mem_unit (c : List (ℚ × ℚ))
    (hb : ∀ q ∈ c, 0 ≤ q.1 ∧ q.1 ≤ 1 ∧ 0 ≤ q.2 ∧ q.2 ≤ 1) :
    0 ≤ eerFromCurve c ∧ eerFromCurve c ≤ 1 := by
  cases c with
  | nil => simp [eerFromCurve]
  | cons p rest =>
    obtain ⟨h1, h2, h3, h4⟩ := hb p (List.mem_cons_self p rest)
    by_cases hc : p.1 ≤ p.2
    · simp only [eerFromCurve, if_pos hc]
      constructor <;> linarith
    · simp only [eerFromCurve, if_neg hc]
      exact eerScan_mem_unit rest p h1 h2 h3 h4 (not_le.mp hc)
        (fun r hr => hb r (List.mem_cons_of_mem p hr))

/-! ### Helper lemmas about the minimum of a list -/

theorem minList_mem (l : List ℚ) (h : l ≠ []) : minList l ∈ l := by
  induction l with
  | nil => exact absurd rfl h
  | cons x xs ih =>
    cases xs with
    | nil => simp [minList]
    | cons y rest =>
      simp only [minList]
      rcases le_total x (minList (y :: rest)) with hle | hle
      · rw [min_eq_left hle]
        exact List.mem_cons_self x _
      · rw [min_eq_right hle]
        exact List.mem_cons_of_mem x (ih (by simp))

theorem minList_le (l : List ℚ) (x : ℚ) (hx : x ∈ l) : minList l ≤ x := by
  induction l with
  | nil => cases hx
  | cons a xs ih =>
    cases xs with
    | nil =>
      rcases List.mem_singleton.mp hx with rfl
      simp [minList]
    | cons y rest =>
      simp only [minList]
      rcases List.mem_cons.mp hx with rfl | hx2
      · exact min_le_left _ _
      · exact le_trans (min_le_right _ _) (ih hx2)

/-! ### Helper lemmas about guard conditions -/

theorem bothClasses_true_iff (labels : List Bool) :
    bothClasses labels = true ↔ true ∈ labels ∧ false ∈ labels := by
  simp [bothClasses]

/-! ### Invariance of the sweep under strictly increasing score maps -/

theorem farCount_map (f : ℚ → ℚ) (hf : StrictMono f) (labels : List Bool) (scores : List ℚ)
    (t : ℚ) : farCount labels (scores.map f) (f t) = farCount labels scores t := by
  unfold farCount
  rw [countP_zip_map f (fun b s => !b && decide (f t ≤ s)) labels scores]
  simp only [hf.le_iff_le]

theorem frrCount_map (f : ℚ → ℚ) (hf : StrictMono f) (labels : List Bool) (scores : List ℚ)
    (t : ℚ) : frrCount labels (scores.map f) (f t) = frrCount labels scores t := by
  unfold frrCount
  rw [countP_zip_map f (fun b s => b && decide (s < f t)) labels scores]
  simp only [hf.lt_iff_lt]

theorem thresholds_map (f : ℚ → ℚ) (hf : StrictMono f) (l : List ℚ) :
    thresholds (l.map f) = (thresholds l).map f := by
  apply sorted_lt_ext
  · exact pairwise_thresholds _
  · exact (pairwise_thresholds l).map f (fun a b h => hf h)
  · intro a
    simp [mem_thresholds, List.mem_map]

theorem curve_map (f : ℚ → ℚ) (hf : StrictMono f) (labels : List Bool) (scores : List ℚ) :
    curve labels (scores.map f) = curve labels scores := by
  unfold curve
  rw [thresholds_map f hf, List.map_map]
  apply List.map_congr_left
  intro t _
  simp only [Function.comp_apply, far, frr, farCount_map f hf, frrCount_map f hf]

/-! ### Claim theorems about the metric calculator -/

/-- C2: on index-aligned inputs with both classes present, `calculate_mindcf`
returns the minimum over the swept thresholds (each unique score) of
`DCF(t) = C_fr * FRR(t) * p_target + C_fa * FAR(t) * (1 - p_target)`: the
returned value is one of the swept DCF values and is a lower bound of all of
them. -/
theorem calculate_mindcf_minimum (labels : List Bool) (scores : List ℚ)
    (pTarget cFa cFr m : ℚ) (h : calculate_mindcf labels scores pTarget cFa cFr = Except.ok m) :
    m ∈ (curve labels scores).map (dcfAt pTarget cFa cFr) ∧
      ∀ d ∈ (curve labels scores).map (dcfAt pTarget cFa cFr), m ≤ d := by
  unfold calculate_mindcf at h
  by_cases hlen : labels.length ≠ scores.length
  · rw [if_pos hlen] at h
    exact Except.noConfusion h
  · rw [if_neg hlen] at h
    by_cases hbc : (!(bothClasses labels)) = true
    · rw [if_pos hbc] at h
      exact Except.noConfusion h
    · rw [if_neg hbc] at h
      injection h with hm
      subst hm
      have hb : bothClasses labels = true := by
        revert hbc
        cases bothClasses labels <;> simp
      obtain ⟨hT, _⟩ := (bothClasses_true_iff labels).mp hb
      constructor
      · apply minList_mem
        have hlabs : labels ≠ [] := List.ne_nil_of_mem hT
        have hscored : scores ≠ [] := by
          intro hs
          apply hlabs
          have h0 : labels.length = 0 := by
            rw [not_not.mp hlen, hs, List.length_nil]
          exact List.eq_nil_of_length_eq_zero h0
        obtain ⟨s, ss, rfl⟩ := List.exists_cons_of_ne_nil hscored
        have hsmem : s ∈ thresholds (s :: ss) := (mem_thresholds s (s :: ss)).mpr
          (List.mem_cons_self s ss)
        have hth : thresholds (s :: ss) ≠ [] := List.ne_nil_of_mem hsmem
        simp [curve, hth]
      · intro d hd
        exact minList_le _ d hd

/-- Witness for `calculate_mindcf_minimum`: labels `[1, 0]`, scores `[1, 0]`,
`p_target = 1/100`, unit costs; the returned minimum DCF is `0`. -/
theorem calculate_mindcf_minimum_witness :
    (0 : ℚ) ∈ (curve [true, false] [1, 0]).map (dcfAt (1/100) 1 1) ∧
      ∀ d ∈ (curve [true, false] [1, 0]).map (dcfAt (1/100) 1 1), (0 : ℚ) ≤ d :=
  calculate_mindcf_minimum [true, false] [1, 0] (1/100) 1 1 0 (by
    norm_num [calculate_mindcf, bothClasses, curve, thresholds, insertAsc, dcfAt, minList,
      far, frr, farCount, frrCount, numTar, numNon, List.countP, List.countP.go])

/-- C3: whenever `calculate_eer` succeeds (index-aligned inputs, both classes
present), the returned EER is the crossing value of the interpolated FAR/FRR
sweep over the unique scores and is a fraction in `[0, 1]`; the evaluation
output multiplies this fraction by 100 for the printed percentage. -/
theorem calculate_eer_fraction (labels : List Bool) (scores : List ℚ) (e : ℚ)
    (h : calculate_eer labels scores = Except.ok e) :
    e = eerFromCurve (curve labels scores) ∧ 0 ≤ e ∧ e ≤ 1 ∧ eer_percent e = 100 * e := by
  unfold calculate_eer at h
  by_cases hlen : labels.length ≠ scores.length
  · rw [if_pos hlen] at h
    exact Except.noConfusion h
  · rw [if_neg hlen] at h
    by_cases hbc : (!(bothClasses labels)) = true
    · rw [if_pos hbc] at h
      exact Except.noConfusion h
    · rw [if_neg hbc] at h
      injection h with hm
      subst hm
      have hb : bothClasses labels = true := by
        revert hbc
        cases bothClasses labels <;> simp
      obtain ⟨hT, hF⟩ := (bothClasses_true_iff labels).mp hb
      obtain ⟨hlo, hhi⟩ := eerFromCurve_mem_unit (curve labels scores)
        (curve_bounds labels scores hT hF)
      exact ⟨rfl, hlo, hhi, mul_comm _ _⟩

/-- Witness for `calculate_eer_fraction`: the spec's tie scenario
labels `[1, 0]`, scores `[0.5, 0.5]` yields EER `1/2`. -/
theorem calculate_eer_fraction_witness :
    (1/2 : ℚ) = eerFromCurve (curve [true, false] [1/2, 1/2]) ∧ (0 : ℚ) ≤ 1/2 ∧
      (1/2 : ℚ) ≤ 1 ∧ eer_percent (1/2) = 100 * (1/2) :=
  calculate_eer_fraction [true, false] [1/2, 1/2] (1/2) (by
    norm_num [calculate_eer, bothClasses, curve, thresholds, insertAsc, eerFromCurve, eerScan,
      interp, far, frr, farCount, frrCount, numTar, numNon, List.countP, List.countP.go])

/-- C4: on a length mismatch between the label and score vectors, or on a
single-class label vector (all positive or all negative), `calculate_eer` and
`calculate_mindcf` fail with an explicit error instead of returning a number. -/
theorem metrics_fail_on_invalid_input (labels : List Bool) (scores : List ℚ)
    (pTarget cFa cFr : ℚ)
    (h : labels.length ≠ scores.length ∨ (∀ b ∈ labels, b = true) ∨ (∀ b ∈ labels, b = false)) :
    isError (calculate_eer labels scores) = true ∧
      isError (calculate_mindcf labels scores pTarget cFa cFr) = true := by
  have key : labels.length ≠ scores.length ∨ bothClasses labels = false := by
    rcases h with h1 | h1 | h1
    · exact Or.inl h1
    · right
      cases hbb : bothClasses labels with
      | false => rfl
      | true =>
        obtain ⟨_, hF⟩ := (bothClasses_true_iff labels).mp hbb
        exact absurd (h1 false hF) (by simp)
    · right
      cases hbb : bothClasses labels with
      | false => rfl
      | true =>
        obtain ⟨hT, _⟩ := (bothClasses_true_iff labels).mp hbb
        exact absurd (h1 true hT) (by simp)
  constructor
  · unfold calculate_eer
    by_cases hlen : labels.length ≠ scores.length
    · rw [if_pos hlen]
      rfl
    · rw [if_neg hlen]
      rcases key with hk | hk
      · exact absurd hk hlen
      · rw [if_pos (by rw [hk]; rfl)]
        rfl
  · unfold calculate_mindcf
    by_cases hlen : labels.length ≠ scores.length
    · rw [if_pos hlen]
      rfl
    · rw [if_neg hlen]
      rcases key with hk | hk
      · exact absurd hk hlen
      · rw [if_pos (by rw [hk]; rfl)]
        rfl

/-- Witness for `metrics_fail_on_invalid_input`: one label but two scores. -/
theorem metrics_fail_on_invalid_input_witness :
    isError (calculate_eer [true] [1, 0]) = true ∧
      isError (calculate_mindcf [true] [1, 0] (1/100) 1 1) = true :=
  metrics_fail_on_invalid_input [true] [1, 0] (1/100) 1 1 (Or.inl (by simp))

/-- C7: on inputs with both classes present, `calculate_eer` is invariant under
applying a strictly increasing function elementwise to the scores. -/
theorem calculate_eer_strictMono_invariant (labels : List Bool) (scores : List ℚ)
    (f : ℚ → ℚ) (hf : StrictMono f) (hT : true ∈ labels) (hF : false ∈ labels) :
    calculate_eer labels (scores.map f) = calculate_eer labels scores := by
  unfold calculate_eer
  rw [List.length_map, curve_map f hf labels scores]

/-- Witness for `calculate_eer_strictMono_invariant` with the strictly
increasing rescaling `x ↦ 2 * x + 1`. -/
theorem calculate_eer_strictMono_invariant_witness :
    calculate_eer [true, false] ([1, 0].map (fun x : ℚ => 2 * x + 1)) =
      calculate_eer [true, false] [1, 0] :=
  calculate_eer_strictMono_invariant [true, false] [1, 0] (fun x => 2 * x + 1)
    (by
      intro a b hab
      dsimp only
      linarith)
    (by simp) (by simp)

/-! ### Helper lemmas about cohort statistics and AS-Norm -/

theorem variance_nonneg (l : List ℚ) : 0 ≤ variance l := by
  unfold variance
  apply div_nonneg
  · apply List.sum_nonneg
    intro x hx
    simp only [List.mem_map] at hx
    obtain ⟨y, _, rfl⟩ := hx
    positivity
  · exact Nat.cast_nonneg _

theorem std_eq_zero_iff (l : List ℚ) : std l = 0 ↔ variance l = 0 := by
  unfold std
  rw [Real.sqrt_eq_zero (by exact_mod_cast variance_nonneg l)]
  exact_mod_cast Iff.rfl

theorem asnorm_ok_cons {U : Type} (k : Nat) (cohortScores : U → List ℚ) (tr : U × U × ℚ)
    (rest : List (U × U × ℚ)) (out : List ℝ)
    (h : asnorm k cohortScores (tr :: rest) = Except.ok out) :
    ∃ v vs, asnormOne k cohortScores tr = Except.ok v ∧
      asnorm k cohortScores rest = Except.ok vs ∧ out = v :: vs := by
  rw [asnorm] at h
  cases h1 : asnormOne k cohortScores tr with
  | error e =>
    rw [h1] at h
    exact Except.noConfusion h
  | ok v =>
    rw [h1] at h
    cases h2 : asnorm k cohortScores rest with
    | error e =>
      rw [h2] at h
      exact Except.noConfusion h
    | ok vs =>
      rw [h2] at h
      injection h with h3
      exact ⟨v, vs, rfl, rfl, h3.symm⟩

theorem asnorm_ok_length {U : Type} (k : Nat) (cohortScores : U → List ℚ)
    (trials : List (U × U × ℚ)) (out : List ℝ)
    (h : asnorm k cohortScores trials = Except.ok out) : out.length = trials.length := by
  induction trials generalizing out with
  | nil =>
    rw [asnorm] at h
    injection h with h2
    rw [← h2]
    rfl
  | cons tr rest ih =>
    obtain ⟨v, vs, _, h2, rfl⟩ := asnorm_ok_cons k cohortScores tr rest out h
    simp [ih vs h2]

theorem asnorm_ok_getElem {U : Type} (k : Nat) (cohortScores : U → List ℚ)
    (trials : List (U × U × ℚ)) (out : List ℝ)
    (h : asnorm k cohortScores trials = Except.ok out) (i : Nat) (hi : i < trials.length) :
    ∃ v, asnormOne k cohortScores (trials.get ⟨i, hi⟩) = Except.ok v ∧ out[i]? = some v := by
  induction trials generalizing out i with
  | nil => exact absurd hi (by simp)
  | cons tr rest ih =>
    obtain ⟨v, vs, h1, h2, rfl⟩ := asnorm_ok_cons k cohortScores tr rest out h
    cases i with
    | zero => exact ⟨v, h1, by simp⟩
    | succ n =>
      have hn : n < rest.length := Nat.lt_of_succ_lt_succ hi
      obtain ⟨w, hw1, hw2⟩ := ih vs h2 n hn
      exact ⟨w, hw1, by simpa using hw2⟩

/-! ### Claim theorems about AS-Norm -/

/-- C1: whenever the AS-Norm step succeeds, the normalized score of trial `i`
with raw score `raw` equals
`0.5 * ((raw - mean_enroll) / std_enroll + (raw - mean_test) / std_test)`,
where each side's statistics are the mean and standard deviation of the top-k
highest cohort similarity scores of that side's utterance. -/
theorem asnorm_formula {U : Type} (k : Nat) (cohortScores : U → List ℚ)
    (trials : List (U × U × ℚ)) (out : List ℝ)
    (h : asnorm k cohortScores trials = Except.ok out) (i : Nat) (hi : i < trials.length) :
    out[i]? = some (1 / 2 *
      ((((trials.get ⟨i, hi⟩).2.2 - mean (topk k (cohortScores (trials.get ⟨i, hi⟩).1)) : ℚ) : ℝ) /
          std (topk k (cohortScores (trials.get ⟨i, hi⟩).1)) +
       (((trials.get ⟨i, hi⟩).2.2 - mean (topk k (cohortScores (trials.get ⟨i, hi⟩).2.1)) : ℚ) : ℝ) /
          std (topk k (cohortScores (trials.get ⟨i, hi⟩).2.1)))) := by
  obtain ⟨v, hv, hout⟩ := asnorm_ok_getElem k cohortScores trials out h i hi
  rw [hout]
  unfold asnormOne at hv
  by_cases hc : variance (topk k (cohortScores (trials.get ⟨i, hi⟩).1)) = 0 ∨
      variance (topk k (cohortScores (trials.get ⟨i, hi⟩).2.1)) = 0
  · rw [if_pos hc] at hv
    exact Except.noConfusion hv
  · rw [if_neg hc] at hv
    injection hv with hv2
    rw [hv2]

/-- Witness for `asnorm_formula`: one trial with raw score 3 and cohort scores
`[2, 0]` on both sides (top-2 mean 1, standard deviation 1); the normalized
score is 2. -/
theorem asnorm_formula_witness :
    ([(2 : ℝ)] : List ℝ)[0]? = some (1 / 2 *
      ((((3 : ℚ) - mean (topk 2 [(2 : ℚ), 0]) : ℚ) : ℝ) / std (topk 2 [(2 : ℚ), 0]) +
       (((3 : ℚ) - mean (topk 2 [(2 : ℚ), 0]) : ℚ) : ℝ) / std (topk 2 [(2 : ℚ), 0]))) := by
  have hvar : variance (topk 2 [(2 : ℚ), 0]) = 1 := by
    norm_num [topk, sortDesc, insertDesc, variance, mean]
  have hmean : mean (topk 2 [(2 : ℚ), 0]) = 1 := by
    norm_num [topk, sortDesc, insertDesc, mean]
  have hstd : std (topk 2 [(2 : ℚ), 0]) = 1 := by
    rw [std, hvar]
    norm_num
  have h1 : asnormOne 2 (fun _ : Nat => [(2 : ℚ), 0]) ((0 : Nat), (1 : Nat), (3 : ℚ)) =
      Except.ok (2 : ℝ) := by
    unfold asnormOne
    dsimp only
    rw [if_neg (by rw [hvar]; norm_num)]
    rw [hmean, hstd]
    norm_num
  have hok : asnorm 2 (fun _ : Nat => [(2 : ℚ), 0]) [((0 : Nat), (1 : Nat), (3 : ℚ))] =
      Except.ok [(2 : ℝ)] := by
    rw [asnorm, h1, asnorm]
    rfl
  exact asnorm_formula 2 (fun _ : Nat => [(2 : ℚ), 0]) [((0 : Nat), (1 : Nat), (3 : ℚ))]
    [(2 : ℝ)] hok 0 (by simp)

/-- C5: if any trial of the list has a zero standard deviation on its
enrollment-side or test-side top-k cohort subset, the AS-Norm step fails with
an explicit error instead of dividing and returning a score. -/
theorem asnorm_fails_on_zero_std {U : Type} (k : Nat) (cohortScores : U → List ℚ)
    (trials : List (U × U × ℚ)) (tr : U × U × ℚ) (hmem : tr ∈ trials)
    (hstd : std (topk k (cohortScores tr.1)) = 0 ∨ std (topk k (cohortScores tr.2.1)) = 0) :
    isError (asnorm k cohortScores trials) = true := by
  have hvar : variance (topk k (cohortScores tr.1)) = 0 ∨
      variance (topk k (cohortScores tr.2.1)) = 0 := by
    rcases hstd with h | h
    · exact Or.inl ((std_eq_zero_iff _).mp h)
    · exact Or.inr ((std_eq_zero_iff _).mp h)
  have hone : asnormOne k cohortScores tr =
      Except.error "zero standard deviation in cohort statistics" := by
    unfold asnormOne
    rw [if_pos hvar]
  induction trials with
  | nil => cases hmem
  | cons hd rest ih =>
    rcases List.mem_cons.mp hmem with rfl | hmem2
    · rw [asnorm, hone]
      rfl
    · rw [asnorm]
      cases h1 : asnormOne k cohortScores hd with
      | error e => rfl
      | ok v =>
        have hrest := ih hmem2
        cases h2 : asnorm k cohortScores rest with
        | error e2 => rfl
        | ok vs =>
          rw [h2] at hrest
          exact absurd hrest (by simp [isError])

/-- Witness for `asnorm_fails_on_zero_std`: a constant cohort score list
`[1, 1]` has zero variance, hence zero standard deviation. -/
theorem asnorm_fails_on_zero_std_witness :
    isError (asnorm 2 (fun _ : Nat => [(1 : ℚ), 1]) [((0 : Nat), (0 : Nat), (3 : ℚ))]) = true := by
  have hvar : variance (topk 2 [(1 : ℚ), 1]) = 0 := by
    norm_num [topk, sortDesc, insertDesc, variance, mean]
  exact asnorm_fails_on_zero_std 2 (fun _ : Nat => [(1 : ℚ), 1])
    [((0 : Nat), (0 : Nat), (3 : ℚ))] ((0 : Nat), (0 : Nat), (3 : ℚ)) (by simp)
    (Or.inl (by rw [std, hvar]; norm_num))

/-! ### Claim theorems about the evaluation pipeline -/

/-- C6: over any trial list, the raw score vector, the label vector and (on
success) the normalized score vector all have exactly one entry per trial, and
the score and label vectors stay index-aligned with the trial list: entry `i`
is computed from trial `i`. -/
theorem eval_pipeline_alignment {U V : Type} (score : V → V → ℚ) (emb : U → V)
    (trials : List (U × U × Bool)) (i : Nat) (hi : i < trials.length)
    (k : Nat) (cohortScores : U → List ℚ) (out : List ℝ)
    (h : asnorm k cohortScores (trialsWithRaw score emb trials) = Except.ok out) :
    (evalScores score emb trials).length = trials.length ∧
      (evalLabels trials).length = trials.length ∧
      out.length = trials.length ∧
      (evalScores score emb trials)[i]? =
        some (score (emb (trials.get ⟨i, hi⟩).1) (emb (trials.get ⟨i, hi⟩).2.1)) ∧
      (evalLabels trials)[i]? = some (trials.get ⟨i, hi⟩).2.2 := by
  refine ⟨List.length_map _ _, List.length_map _ _, ?_, ?_, ?_⟩
  · rw [asnorm_ok_length k cohortScores _ out h, trialsWithRaw, List.length_map]
  · rw [evalScores, List.getElem?_map, List.getElem?_eq_getElem hi]
    rfl
  · rw [evalLabels, List.getElem?_map, List.getElem?_eq_getElem hi]
    rfl

/-- Witness for `eval_pipeline_alignment`: a single trial over rational
embeddings with additive similarity, normalized against cohort scores `[2, 0]`. -/
theorem eval_pipeline_alignment_witness :
    (evalScores (fun a b : ℚ => a + b) (fun u : ℚ => u) [((0 : ℚ), (1 : ℚ), true)]).length =
        ([((0 : ℚ), (1 : ℚ), true)] : List (ℚ × ℚ × Bool)).length ∧
      (evalLabels [((0 : ℚ), (1 : ℚ), true)]).length =
        ([((0 : ℚ), (1 : ℚ), true)] : List (ℚ × ℚ × Bool)).length ∧
      ([(0 : ℝ)] : List ℝ).length = ([((0 : ℚ), (1 : ℚ), true)] : List (ℚ × ℚ × Bool)).length ∧
      (evalScores (fun a b : ℚ => a + b) (fun u : ℚ => u) [((0 : ℚ), (1 : ℚ), true)])[0]? =
        some ((fun a b : ℚ => a + b) ((fun u : ℚ => u) 0) ((fun u : ℚ => u) 1)) ∧
      (evalLabels [((0 : ℚ), (1 : ℚ), true)])[0]? = some true := by
  have hvar : variance (topk 2 [(2 : ℚ), 0]) = 1 := by
    norm_num [topk, sortDesc, insertDesc, variance, mean]
  have hmean : mean (topk 2 [(2 : ℚ), 0]) = 1 := by
    norm_num [topk, sortDesc, insertDesc, mean]
  have hstd : std (topk 2 [(2 : ℚ), 0]) = 1 := by
    rw [std, hvar]
    norm_num
  have h1 : asnormOne 2 (fun _ : ℚ => [(2 : ℚ), 0]) ((0 : ℚ), (1 : ℚ), (1 : ℚ)) =
      Except.ok (0 : ℝ) := by
    unfold asnormOne
    dsimp only
    rw [if_neg (by rw [hvar]; norm_num)]
    rw [hmean, hstd]
    norm_num
  have htr : trialsWithRaw (fun a b : ℚ => a + b) (fun u : ℚ => u) [((0 : ℚ), (1 : ℚ), true)] =
      [((0 : ℚ), (1 : ℚ), (1 : ℚ))] := by
    norm_num [trialsWithRaw]
  have hok : asnorm 2 (fun _ : ℚ => [(2 : ℚ), 0])
      (trialsWithRaw (fun a b : ℚ => a + b) (fun u : ℚ => u) [((0 : ℚ), (1 : ℚ), true)]) =
      Except.ok [(0 : ℝ)] := by
    rw [htr, asnorm, h1, asnorm]
    rfl
  exact eval_pipeline_alignment (fun a b : ℚ => a + b) (fun u : ℚ => u)
    [((0 : ℚ), (1 : ℚ), true)] 0 (by simp) 2 (fun _ : ℚ => [(2 : ℚ), 0]) [(0 : ℝ)] hok

/-- C8: when the precomputed-vector mapping agrees with fresh extraction on
every cached utterance (as when Vox1-H reuses the Vox1-E vectors produced by
the same model), evaluation with the cache returns the same per-trial scores,
the same EER and the same minDCF as evaluation that extracts every embedding
fresh (`vectors=None`, the empty cache). -/
theorem eval_veri_cached_equivalent {U V : Type} (score : V → V → ℚ) (extract : U → V)
    (cache : U → Option V) (trials : List (U × U × Bool)) (pTarget cFa cFr : ℚ)
    (hcache : ∀ u v, cache u = some v → v = extract u) :
    evalScores score (getVec cache extract) trials =
        evalScores score (getVec (fun _ => none) extract) trials ∧
      calculate_eer (evalLabels trials) (evalScores score (getVec cache extract) trials) =
        calculate_eer (evalLabels trials)
          (evalScores score (getVec (fun _ => none) extract) trials) ∧
      calculate_mindcf (evalLabels trials) (evalScores score (getVec cache extract) trials)
          pTarget cFa cFr =
        calculate_mindcf (evalLabels trials)
          (evalScores score (getVec (fun _ => none) extract) trials) pTarget cFa cFr := by
  have hfun : getVec cache extract = extract := by
    funext u
    cases hc : cache u with
    | none => simp [getVec, hc]
    | some v => simp [getVec, hc, hcache u v hc]
  have hfun2 : getVec (fun _ : U => none) extract = extract := by
    funext u
    simp [getVec]
  rw [hfun, hfun2]
  exact ⟨rfl, rfl, rfl⟩

/-- Witness for `eval_veri_cached_equivalent`: identity embeddings with a cache
that stores exactly the extracted vectors. -/
theorem eval_veri_cached_equivalent_witness :
    evalScores (fun a b : ℚ => a + b) (getVec (fun u : ℚ => some u) (fun u : ℚ => u))
        [((0 : ℚ), (1 : ℚ), true)] =
      evalScores (fun a b : ℚ => a + b) (getVec (fun _ : ℚ => none) (fun u : ℚ => u))
        [((0 : ℚ), (1 : ℚ), true)] ∧
    calculate_eer (evalLabels [((0 : ℚ), (1 : ℚ), true)])
        (evalScores (fun a b : ℚ => a + b) (getVec (fun u : ℚ => some u) (fun u : ℚ => u))
          [((0 : ℚ), (1 : ℚ), true)]) =
      calculate_eer (evalLabels [((0 : ℚ), (1 : ℚ), true)])
        (evalScores (fun a b : ℚ => a + b) (getVec (fun _ : ℚ => none) (fun u : ℚ => u))
          [((0 : ℚ), (1 : ℚ), true)]) ∧
    calculate_mindcf (evalLabels [((0 : ℚ), (1 : ℚ), true)])
        (evalScores (fun a b : ℚ => a + b) (getVec (fun u : ℚ => some u) (fun u : ℚ => u))
          [((0 : ℚ), (1 : ℚ), true)]) (1/100) 1 1 =
      calculate_mindcf (evalLabels [((0 : ℚ), (1 : ℚ), true)])
        (evalScores (fun a b : ℚ => a + b) (getVec (fun _ : ℚ => none) (fun u : ℚ => u))
          [((0 : ℚ), (1 : ℚ), true)]) (1/100) 1 1 :=
  eval_veri_cached_equivalent (fun a b : ℚ => a + b) (fun u : ℚ => u) (fun u : ℚ => some u)
    [((0 : ℚ), (1 : ℚ), true)] (1/100) 1 1
    (fun u v hv => by
      injection hv with hv2
      exact hv2.symm)

/-- C9: the `EfficientTDNN.ipynb` versions of `eval_veri` and `eval_asnorm`
ignore their `p_target` parameter: they pass a hard-coded `0.01` to
`veri_validate` and `calculate_mindcf`, so for every `p_target` they return
exactly the `p_target = 0.01` results; the `SubnetEvaluation.ipynb` versions
forward the parameter, exhibited by collaborators for which their output does
change with `p_target`. -/
theorem eval_pTarget_hardcoded {L N V S Lb C CO S2 : Type}
    (veri_validate : L → N → ℚ → (ℚ × ℚ) × (ℚ × ℚ) × V × S) (test_loader : L) (network : N)
    (score_cohorts : C → V → CO) (asnormF : S → CO → S2) (calcEer : Lb → S2 → ℚ × ℚ)
    (calcMindcf : Lb → S2 → ℚ → ℚ × ℚ) (labs : Lb) (vec : V) (scs : S) (cohorts : C)
    (p_target : ℚ) :
    eval_veri_E veri_validate test_loader network p_target =
        eval_veri_E veri_validate test_loader network (1 / 100) ∧
      eval_asnorm_E score_cohorts asnormF calcEer calcMindcf labs vec scs cohorts p_target =
        eval_asnorm_E score_cohorts asnormF calcEer calcMindcf labs vec scs cohorts (1 / 100) ∧
      eval_veri_S (fun (_ : ℚ) (_ : ℚ) (p : ℚ) => ((p, p), (p, p), p, p)) 0 0 1 ≠
        eval_veri_S (fun (_ : ℚ) (_ : ℚ) (p : ℚ) => ((p, p), (p, p), p, p)) 0 0 (1 / 100) ∧
      eval_asnorm_S (fun (_ : ℚ) (_ : ℚ) => (0 : ℚ)) (fun (_ : ℚ) (_ : ℚ) => (0 : ℚ))
          (fun (_ : ℚ) (_ : ℚ) => ((0 : ℚ), (0 : ℚ))) (fun (_ : ℚ) (_ : ℚ) (p : ℚ) => (p, p))
          0 0 0 0 1 ≠
        eval_asnorm_S (fun (_ : ℚ) (_ : ℚ) => (0 : ℚ)) (fun (_ : ℚ) (_ : ℚ) => (0 : ℚ))
          (fun (_ : ℚ) (_ : ℚ) => ((0 : ℚ), (0 : ℚ))) (fun (_ : ℚ) (_ : ℚ) (p : ℚ) => (p, p))
          0 0 0 0 (1 / 100) := by
  refine ⟨rfl, rfl, ?_, ?_⟩
  · simp only [eval_veri_S, ne_eq, Prod.mk.injEq]
    norm_num
  · simp only [eval_asnorm_S, ne_eq, Prod.mk.injEq]
    norm_num

/-- C10: in `SubnetEvaluation.ipynb`, when the cached batch-norm file of a
subnet configuration exists it is loaded, no calibration forward passes run,
and the result does not depend on the shuffled training list (deterministic
given fixed inputs); the calibration data otherwise is a 6000-element
truncation of the shuffled training list, and two permutations of the same
training list can yield different calibration data, so batch-norm statistics
need not be reproducible across runs. -/
theorem bn_calibration_cache_determinism :
    (∀ (U B : Type) (cached : B) (calibrate : List U → B) (s1 s2 : List U),
        subnetBn true cached calibrate s1 = (cached, false) ∧
          subnetBn true cached calibrate s1 = subnetBn true cached calibrate s2) ∧
      (∀ s : List Nat, s.Perm (List.range 6001) → (calibData s).length = 6000) ∧
      (∃ s1 s2 : List Nat, s1.Perm (List.range 6001) ∧ s2.Perm (List.range 6001) ∧
          subnetBn false ([] : List Nat) (fun l => l) s1 ≠
            subnetBn false ([] : List Nat) (fun l => l) s2) := by
  refine ⟨fun U B cached calibrate s1 s2 => ⟨rfl, rfl⟩, ?_, ?_⟩
  · intro s hs
    rw [calibData, List.length_take, hs.length_eq, List.length_range]
    omega
  · refine ⟨List.range 6001, 6000 :: List.range 6000, List.Perm.refl _, ?_, ?_⟩
    · have hr : List.range 6001 = List.range 6000 ++ [6000] := List.range_succ 6000
      rw [hr]
      exact (List.perm_append_singleton 6000 (List.range 6000)).symm
    · intro hcontra
      have h1 : calibData (List.range 6001) = calibData (6000 :: List.range 6000) := by
        have := congrArg Prod.fst hcontra
        simpa [subnetBn] using this
      have h2 := congrArg (fun l : List Nat => l[0]?) h1
      simp only [calibData] at h2
      rw [List.getElem?_take, List.getElem?_take] at h2
      simp [List.getElem?_range] at h2

end Sugar

section SpecScenarios

/-! Concrete scenarios from the spec's testable properties (section 8):
perfect separation gives EER 0, an opposite-label tie gives EER 1/2, and the
input contract is enforced. -/

open Sugar

example : calculate_eer [true, true, false, false] [9/10, 8/10, 3/10, 1/10] = Except.ok 0 := by
  norm_num [calculate_eer, bothClasses, curve, thresholds, insertAsc, eerFromCurve, eerScan,
    interp, far, frr, farCount, frrCount, numTar, numNon, List.countP, List.countP.go]

example : calculate_eer [true, false] [1/2, 1/2] = Except.ok (1/2) := by
  norm_num [calculate_eer, bothClasses, curve, thresholds, insertAsc, eerFromCurve, eerScan,
    interp, far, frr, farCount, frrCount, numTar, numNon, List.countP, List.countP.go]

example : calculate_mindcf [true, false] [1, 0] (1/100) 1 1 = Except.ok 0 := by
  norm_num [calculate_mindcf, bothClasses, curve, thresholds, insertAsc, dcfAt, minList,
    far, frr, farCount, frrCount, numTar, numNon, List.countP, List.countP.go]

example : calculate_eer [true] [1, 0] = Except.error "length mismatch between labels and scores" := by
  norm_num [calculate_eer]

end SpecScenarios
